import Mathlib

/-!
Verification of the AWC-Badge-rotator repository (Go).

The repository contains three variants of the same small HTTP badge server:
two in `main.go` (called variant A and variant B below; variant B differs in
that it also rejects slot values above `numBadgeSlots = 3`) and one
serverless variant (the `Handler`/`badgeHandlerInternal` file, called
variant V below, which adds an empty-catalog refresh trigger, a guarded
modulo, and an `os.Stat` existence re-check before serving).

The Go code is shallowly embedded as follows:
- Go `int`/`int64` values are modelled as `Int`; Go `/` and `%` are the
  truncated division `Int.tdiv` / `Int.tmod`.  An operation that panics in
  Go (index out of range, modulo by zero) is modelled by `Option`, `none`
  standing for the panic.
- `math/rand`: `rand.New(rand.NewSource(baseSeed))` followed by
  `Shuffle(n, swap)` draws, at loop index `i` (from `n-1` down to `1`), a
  pseudo-random `j` uniform in `0..i` and swaps positions `i` and `j`.
  The stream of draws is abstracted as a function `g : Nat → Nat`; the
  draw at index `i` is `g i % (i+1)`.  Every concrete seed yields one such
  `g`, so properties proved for all `g` hold for the Go generator.
- The filesystem seen by `filepath.WalkDir` is a finite tree `FsEntry`;
  a node whose access fails during the walk is `FsEntry.inaccessible`.
- `strings.ToLower` is modelled on the ASCII range (the filenames in the
  spec and in the badge directory are ASCII); `sort.Strings` is modelled
  by insertion sort over byte-lexicographic order, which agrees with Go's
  sort on the sorted result since the order is total and antisymmetric.
-/

/-! ## Go primitive operations -/

/-- Go slice indexing `l[i]` with an `int` index: panics (modelled as
`none`) when `i` is negative or not below the length. -/
def goIndex (l : List α) (i : Int) : Option α :=
  if h : 0 ≤ i ∧ i.toNat < l.length then some (l.get ⟨i.toNat, h.2⟩) else none

/-- Go integer remainder `a % b` (truncated, sign of the dividend):
panics (modelled as `none`) when `b = 0`. -/
def goMod (a b : Int) : Option Int :=
  if b = 0 then none else some (Int.tmod a b)

/-- Byte-lexicographic `≤` on strings as character lists (Go compares
strings byte-wise; on UTF-8 this agrees with code-point order). -/
def lexLe : List Char → List Char → Bool
  | [], _ => true
  | _ :: _, [] => false
  | a :: as, b :: bs =>
    if a.toNat < b.toNat then true
    else if b.toNat < a.toNat then false
    else lexLe as bs

/-- Go string comparison `a <= b`. -/
def strLe (a b : String) : Bool := lexLe a.toList b.toList

/-- `sort.Strings`: sorts the list of names in increasing order.  The Go
implementation is an unstable quicksort, but over a total antisymmetric
order the sorted result is unique, so insertion sort is extensionally the
same function. -/
def sortStrings (l : List String) : List String :=
  l.insertionSort (fun a b => strLe a b = true)

/-- `strings.ToLower` on one character, ASCII range. -/
def lowerChar (c : Char) : Char :=
  if 'A' ≤ c ∧ c ≤ 'Z' then Char.ofNat (c.toNat + 32) else c

/-- `strings.ToLower`, ASCII range. -/
def lowerStr (s : String) : String :=
  ⟨s.toList.map lowerChar⟩

/-- `strings.HasSuffix s suf`. -/
def goHasSuffix (s suf : String) : Bool :=
  decide (suf.toList.length ≤ s.toList.length) &&
    (s.toList.drop (s.toList.length - suf.toList.length) == suf.toList)

/-- Decimal digit run for `strconv.Atoi`: accumulates the value, fails on
the first non-digit. -/
def parseDigitsAux (acc : Nat) : List Char → Option Nat
  | [] => some acc
  | c :: rest => if c.isDigit then parseDigitsAux (10 * acc + (c.toNat - 48)) rest else none

/-- A non-empty all-digit run, as required after the optional sign. -/
def parseNatDigits (cs : List Char) : Option Nat :=
  match cs with
  | [] => none
  | _ :: _ => parseDigitsAux 0 cs

def int64MaxVal : Int := 9223372036854775807

def int64MinVal : Int := -9223372036854775808

/-- `strconv.Atoi`: optional sign, a non-empty digit run, 64-bit range
check.  `none` models `err != nil` (absent, empty, non-numeric or
out-of-range input). -/
def goAtoi (s : String) : Option Int :=
  match s.toList with
  | '+' :: rest =>
    match parseNatDigits rest with
    | some n => if (n : Int) ≤ int64MaxVal then some (n : Int) else none
    | none => none
  | '-' :: rest =>
    match parseNatDigits rest with
    | some n => if int64MinVal ≤ -(n : Int) then some (-(n : Int)) else none
    | none => none
  | cs =>
    match parseNatDigits cs with
    | some n => if (n : Int) ≤ int64MaxVal then some (n : Int) else none
    | none => none

/-! ## The Fisher–Yates shuffle of `math/rand` -/

/-- One swap of the `swap(i, j)` callback: exchanges positions `i` and `j`
of the slice (identity when an index is out of range; in the shuffle both
are always in range). -/
def swapL (l : List α) (i j : Nat) : List α :=
  match l[i]?, l[j]? with
  | some a, some b => (l.set i b).set j a
  | _, _ => l

/-- The loop of `rand.Shuffle`: for `i` from `n-1` down to `1`, draw
`j := g i % (i+1)` and swap positions `i` and `j`. -/
def shuffleLoop (g : Nat → Nat) : List Nat → Nat → List Nat
  | l, 0 => l
  | l, i + 1 => shuffleLoop g (swapL l (i + 1) (g (i + 1) % (i + 2))) i

/-- `shuffleRand.Shuffle(len(l), swap)` applied to the index slice `l`,
with the pseudo-random stream `g`. -/
def goShuffle (g : Nat → Nat) (l : List Nat) : List Nat :=
  shuffleLoop g l (l.length - 1)

theorem cons_get_set_perm (x : α) : ∀ (xs : List α) (m : Nat) (hm : m < xs.length),
    List.Perm (xs.get ⟨m, hm⟩ :: xs.set m x) (x :: xs)
  | y :: t, 0, _ => by
    simp only [List.get, List.set]
    exact List.Perm.swap x y t
  | y :: t, m + 1, hm => by
    simp only [List.get, List.set]
    have ih := cons_get_set_perm x t m (by simpa using hm)
    have h1 : List.Perm (t.get ⟨m, by simpa using hm⟩ :: y :: t.set m x)
        (y :: t.get ⟨m, by simpa using hm⟩ :: t.set m x) := List.Perm.swap _ _ _
    have h2 : List.Perm (y :: t.get ⟨m, by simpa using hm⟩ :: t.set m x) (y :: x :: t) :=
      List.Perm.cons y ih
    exact (h1.trans h2).trans (List.Perm.swap _ _ _)

theorem set_set_perm : ∀ (l : List α) (i j : Nat) (hi : i < l.length) (hj : j < l.length),
    List.Perm ((l.set i (l.get ⟨j, hj⟩)).set j (l.get ⟨i, hi⟩)) l
  | x :: t, 0, 0, _, _ => by
    simp only [List.get, List.set]
    exact List.Perm.refl _
  | x :: t, 0, m + 1, hi, hj => by
    simp only [List.get, List.set]
    exact cons_get_set_perm x t m (by simpa using hj)
  | x :: t, n + 1, 0, hi, hj => by
    simp only [List.get, List.set]
    exact cons_get_set_perm x t n (by simpa using hi)
  | x :: t, n + 1, m + 1, hi, hj => by
    simp only [List.get, List.set]
    exact List.Perm.cons x (set_set_perm t n m (by simpa using hi) (by simpa using hj))

theorem swapL_perm (l : List α) (i j : Nat) : List.Perm (swapL l i j) l := by
  unfold swapL
  split
  · next a b h1 h2 =>
    rw [List.getElem?_eq_some] at h1 h2
    obtain ⟨hi, ha⟩ := h1
    obtain ⟨hj, hb⟩ := h2
    subst ha hb
    simpa using set_set_perm l i j hi hj
  · exact List.Perm.refl l

theorem shuffleLoop_perm (g : Nat → Nat) : ∀ (l : List Nat) (k : Nat),
    List.Perm (shuffleLoop g l k) l
  | l, 0 => List.Perm.refl l
  | l, i + 1 =>
    (shuffleLoop_perm g (swapL l (i + 1) (g (i + 1) % (i + 2))) i).trans
      (swapL_perm l (i + 1) (g (i + 1) % (i + 2)))

theorem goShuffle_perm (g : Nat → Nat) (l : List Nat) : List.Perm (goShuffle g l) l :=
  shuffleLoop_perm g l (l.length - 1)

theorem goShuffle_range_length (g : Nat → Nat) (n : Nat) :
    (goShuffle g (List.range n)).length = n := by
  have := (goShuffle_perm g (List.range n)).length_eq
  simpa using this

theorem goShuffle_range_nodup (g : Nat → Nat) (n : Nat) :
    (goShuffle g (List.range n)).Nodup :=
  ((goShuffle_perm g (List.range n)).nodup_iff).mpr (List.nodup_range n)

theorem goShuffle_range_lt (g : Nat → Nat) (n : Nat) :
    ∀ x ∈ goShuffle g (List.range n), x < n := fun x hx => by
  have := (goShuffle_perm g (List.range n)).mem_iff.mp hx
  simpa using this

/-! ## Order facts for `sortStrings` -/

theorem lexLe_total (a b : List Char) : lexLe a b = true ∨ lexLe b a = true := by
  induction a generalizing b with
  | nil => left; rfl
  | cons x xs ih =>
    cases b with
    | nil => right; rfl
    | cons y ys =>
      by_cases h1 : x.toNat < y.toNat
      · left; simp [lexLe, h1]
      · by_cases h2 : y.toNat < x.toNat
        · right; simp [lexLe, h2]
        · rcases ih ys with h | h
          · left; simp [lexLe, h1, h2, h]
          · right; simp [lexLe, h1, h2, h]

theorem lexLe_trans {a b c : List Char} (h1 : lexLe a b = true) (h2 : lexLe b c = true) :
    lexLe a c = true := by
  induction a generalizing b c with
  | nil => rfl
  | cons x xs ih =>
    cases b with
    | nil => simp [lexLe] at h1
    | cons y ys =>
      cases c with
      | nil => simp [lexLe] at h2
      | cons z zs =>
        simp only [lexLe] at h1 h2 ⊢
        split at h1
        · next hxy =>
          split
          · rfl
          · next hzx =>
            split at h2
            · next hyz => omega
            · split at h2
              · exact absurd h2 (by simp)
              · next h4 h5 => omega
        · next hxy =>
          split at h1
          · exact absurd h1 (by simp)
          · next hyx =>
            split at h2
            · next hyz =>
              split
              · rfl
              · next hzx => omega
            · split at h2
              · exact absurd h2 (by simp)
              · next hyz hzy =>
                split
                · rfl
                · next hzx =>
                  have hxz : ¬ z.toNat < x.toNat := by omega
                  simp only [hxz, if_false]
                  exact ih h1 h2

instance : IsTotal String (fun a b => strLe a b = true) :=
  ⟨fun a b => lexLe_total a.toList b.toList⟩

instance : IsTrans String (fun a b => strLe a b = true) :=
  ⟨fun _ _ _ h1 h2 => lexLe_trans h1 h2⟩

theorem sortStrings_perm (l : List String) : List.Perm (sortStrings l) l :=
  List.perm_insertionSort _ l

theorem sortStrings_sorted (l : List String) :
    (sortStrings l).Pairwise (fun a b => strLe a b = true) :=
  List.sorted_insertionSort _ l

/-! ## The badge directory and `discoverBadges` -/

mutual
/-- A finite filesystem tree as seen by `filepath.WalkDir`.  A node whose
access fails mid-walk (permissions, disappearance) is `inaccessible`:
`WalkDir` then invokes the callback with a non-nil `errWalk`, which the
callback propagates, aborting the walk with that error.  (`FsForest` is
the list of entries of a directory, in the order `WalkDir` visits them.) -/
inductive FsEntry where
  | file (name : String)
  | inaccessible (name : String)
  | dir (name : String) (entries : FsForest)
deriving DecidableEq

inductive FsForest where
  | nil
  | cons (e : FsEntry) (rest : FsForest)
deriving DecidableEq
end

/-- The eligibility test of the `WalkDir` callback:
`strings.HasSuffix(strings.ToLower(d.Name()), ".gif") || strings.HasSuffix(strings.ToLower(d.Name()), ".png")`. -/
def isEligibleName (n : String) : Bool :=
  goHasSuffix (lowerStr n) ".gif" || goHasSuffix (lowerStr n) ".png"

mutual
/-- The `filepath.WalkDir` traversal with the callback of `discoverBadges`:
visits every entry recursively; directory entries themselves are skipped
by `!d.IsDir()`; a regular file contributes its base name when eligible;
an access error aborts the walk with an error. -/
def walkEntry : FsEntry → Except Unit (List String)
  | .file n => if isEligibleName n then .ok [n] else .ok []
  | .inaccessible _ => .error ()
  | .dir _ es => walkForest es

def walkForest : FsForest → Except Unit (List String)
  | .nil => .ok []
  | .cons e rest =>
    match walkEntry e with
    | .error err => .error err
    | .ok xs =>
      match walkForest rest with
      | .error err => .error err
      | .ok ys => .ok (xs ++ ys)
end

mutual
/-- The names the walk would collect on an error-free tree: every `file`
node at every depth whose name is eligible, in visit order.  Used to
characterise what `discoverBadges` puts in the catalog. -/
def treeEligibleNames : FsEntry → List String
  | .file n => if isEligibleName n then [n] else []
  | .inaccessible _ => []
  | .dir _ es => forestEligibleNames es

def forestEligibleNames : FsForest → List String
  | .nil => []
  | .cons e rest => treeEligibleNames e ++ forestEligibleNames rest
end

/-- The shared mutable state of the server: `badgeFilesList` and
`lastDiscoveryTime` (nanoseconds, as a Go `time.Time` difference is a
nanosecond count). -/
structure CatalogState where
  badgeFilesList : List String
  lastDiscoveryTime : Int
deriving DecidableEq

/-- `discoveryInterval = 5 * time.Minute`, in nanoseconds. -/
def discoveryInterval : Int := 5 * 60 * 1000000000

/-- `discoverBadges` as a state transition: walk the badge directory
`root`; on a walk error return with the state untouched; otherwise sort
the collected names and replace the snapshot (an empty collection
installs the empty list), then stamp `lastDiscoveryTime := now`. -/
def discoverBadges (st : CatalogState) (root : FsEntry) (now : Int) : CatalogState :=
  match walkEntry root with
  | .error _ => st
  | .ok discovered =>
    if 0 < discovered.length then
      { badgeFilesList := sortStrings discovered, lastDiscoveryTime := now }
    else
      { badgeFilesList := [], lastDiscoveryTime := now }

/-- The refresh trigger of `badgeHandler` in `main.go` (variants A and B):
`time.Since(lastDiscoveryTime) > discoveryInterval`.  The snapshot
contents play no part. -/
def shouldDiscoverMain (st : CatalogState) (now : Int) : Bool :=
  decide (discoveryInterval < now - st.lastDiscoveryTime)

/-- The refresh trigger of `Handler` in the serverless variant:
`len(badgeFilesList) == 0 || time.Since(lastDiscoveryTime) > discoveryInterval`. -/
def shouldDiscoverHandler (st : CatalogState) (now : Int) : Bool :=
  (st.badgeFilesList.length == 0) || decide (discoveryInterval < now - st.lastDiscoveryTime)

/-! ## Slot normalization and selection -/

/-- `timeWindowSeconds := 2`. -/
def timeWindowSeconds : Int := 2

/-- `baseSeed := time.Now().Unix() / int64(timeWindowSeconds)` (Go `/` on
`int64` is truncated division). -/
def baseSeed (t : Int) : Int := Int.tdiv t timeWindowSeconds

/-- `numBadgeSlots = 3` (only consulted by variant B). -/
def numBadgeSlots : Int := 3

/-- Slot normalization of variant A and of the serverless variant:
`slot, err := strconv.Atoi(slotStr); if err != nil || slot < 1 { slot = 1 }`. -/
def normalizeSlot (slotStr : String) : Int :=
  match goAtoi slotStr with
  | none => 1
  | some v => if v < 1 then 1 else v

/-- Slot normalization of variant B:
`if err != nil || slot < 1 || slot > numBadgeSlots { slot = 1 }`. -/
def normalizeSlotB (slotStr : String) : Int :=
  match goAtoi slotStr with
  | none => 1
  | some v => if v < 1 ∨ numBadgeSlots < v then 1 else v

/-- Outcome of the slot-selection block: the regular pick, the defensive
first-entry fallback, the HTTP-500 "selection error" branch, or a Go
runtime panic (from modulo by zero or an out-of-range index). -/
inductive SelOutcome where
  | picked (f : String)
  | fallback (f : String)
  | selError
  | crashed
deriving DecidableEq

/-- The selection block of variant A (`main.go` lines 89–108): build
`tempIndices = [0..n)`, shuffle it with the seed-derived stream, take
`effectiveSlotIndex := (slot - 1) % len(tempIndices)` and serve
`currentAvailableBadges[tempIndices[effectiveSlotIndex]]`, falling back
to the first entry (or to the 500 error on an empty list) when the index
guard fails. -/
def selectA (catalog : List String) (g : Nat → Nat) (slot : Int) : SelOutcome :=
  let tempIndices := goShuffle g (List.range catalog.length)
  match goMod (slot - 1) (Int.ofNat tempIndices.length) with
  | none => .crashed
  | some e =>
    if e < (tempIndices.length : Int) then
      match goIndex tempIndices e with
      | none => .crashed
      | some ti =>
        match goIndex catalog (Int.ofNat ti) with
        | none => .crashed
        | some f => .picked f
    else
      if 0 < catalog.length then
        match goIndex catalog 0 with
        | none => .crashed
        | some f => .fallback f
      else .selError

/-- The selection block of variant B (`main.go` lines 244–266); the
source text is identical to variant A's. -/
def selectB (catalog : List String) (g : Nat → Nat) (slot : Int) : SelOutcome :=
  let tempIndices := goShuffle g (List.range catalog.length)
  match goMod (slot - 1) (Int.ofNat tempIndices.length) with
  | none => .crashed
  | some e =>
    if e < (tempIndices.length : Int) then
      match goIndex tempIndices e with
      | none => .crashed
      | some ti =>
        match goIndex catalog (Int.ofNat ti) with
        | none => .crashed
        | some f => .picked f
    else
      if 0 < catalog.length then
        match goIndex catalog 0 with
        | none => .crashed
        | some f => .fallback f
      else .selError

/-- The selection block of `badgeHandlerInternal` (serverless variant,
lines 108–137): as variant A, except that the modulo is guarded by
`if len(tempIndices) > 0`, with an explicit 500 error otherwise. -/
def selectV (catalog : List String) (g : Nat → Nat) (slot : Int) : SelOutcome :=
  let tempIndices := goShuffle g (List.range catalog.length)
  if 0 < tempIndices.length then
    match goMod (slot - 1) (Int.ofNat tempIndices.length) with
    | none => .crashed
    | some e =>
      if e < (tempIndices.length : Int) then
        match goIndex tempIndices e with
        | none => .crashed
        | some ti =>
          match goIndex catalog (Int.ofNat ti) with
          | none => .crashed
          | some f => .picked f
      else
        if 0 < catalog.length then
          match goIndex catalog 0 with
          | none => .crashed
          | some f => .fallback f
        else .selError
  else .selError

/-! ## The HTTP handlers (post-lock pipeline, catalog snapshot given) -/

/-- An HTTP response of the badge route, as far as the claims observe it:
a successful serve (content type and resolved file path handed to
`http.ServeFile`), an `http.Error` with 404 or 500 and its message, or a
Go runtime panic. -/
inductive GoResp where
  | ok (contentType : String) (path : String)
  | notFound (msg : String)
  | serverError (msg : String)
  | crashed
deriving DecidableEq

/-- `filepath.Join(badgesDir, name)` with `badgesDir = "./badges"`
(`Join` cleans the leading `./`). -/
def joinBadges (f : String) : String := "badges/" ++ f

/-- Content-type selection: `.png` (case-insensitive) serves `image/png`,
everything else `image/gif`. -/
def contentTypeFor (f : String) : String :=
  if goHasSuffix (lowerStr f) ".png" then "image/png" else "image/gif"

/-- An ASCII single-quote character as a string. -/
def singleQuote : String := String.singleton (Char.ofNat 39)

/-- The 404 body of the serverless variant when the selected file is
missing at serve time: `fmt.Sprintf("Badge file '%s' not found on server.", selectedFilename)`. -/
def fileMissingMsg (f : String) : String :=
  "Badge file " ++ singleQuote ++ f ++ singleQuote ++ " not found on server."

/-- `badgeHandler` of variant A after the refresh check, on the snapshot
`catalog`: empty-catalog 404, the (dead) post-copy empty re-check, slot
normalization, selection, headers, and `http.ServeFile`.  The handler
never consults the filesystem before streaming: the `_fileExists`
collaborator is ignored, a miss is left to `http.ServeFile`. -/
def badgeHandlerA (catalog : List String) (slotStr : String) (g : Nat → Nat)
    (_fileExists : String → Bool) : GoResp :=
  if catalog.length == 0 then .notFound "No badges available"
  else if catalog.length == 0 then .notFound "No badges available after copy"
  else
    match selectA catalog g (normalizeSlot slotStr) with
    | .crashed => .crashed
    | .selError => .serverError "Error selecting badge"
    | .picked f => .ok (contentTypeFor f) (joinBadges f)
    | .fallback f => .ok (contentTypeFor f) (joinBadges f)

/-- `badgeHandlerInternal` of the serverless variant on the snapshot
`catalog`: as variant A, but with the guarded selection `selectV` and,
before serving, the `os.Stat` re-check that answers 404 with
`fileMissingMsg` when the resolved path no longer exists.  (The two
distinct 500 messages of the source are both modelled as the
`serverError` response.) -/
def badgeHandlerInternal (catalog : List String) (slotStr : String) (g : Nat → Nat)
    (fileExists : String → Bool) : GoResp :=
  if catalog.length == 0 then .notFound "No badges available"
  else if catalog.length == 0 then .notFound "No badges available after copy"
  else
    match selectV catalog g (normalizeSlot slotStr) with
    | .crashed => .crashed
    | .selError => .serverError "Error selecting badge"
    | .picked f | .fallback f =>
      if fileExists (joinBadges f) == false then .notFound (fileMissingMsg f)
      else .ok (contentTypeFor f) (joinBadges f)

/-! ## Concrete trees used as witnesses and counterexamples -/

/-- Claim-side reading of discovery for C5: only the eligible regular
files directly at the top level of the badge directory ("not files found
inside subdirectories"). -/
def forestTopFiles : FsForest → List String
  | .nil => []
  | .cons (.file n) rest => (if isEligibleName n then [n] else []) ++ forestTopFiles rest
  | .cons _ rest => forestTopFiles rest

/-- Claim-side reading of the catalog for C5, at the root directory. -/
def topLevelEligibleNames : FsEntry → List String
  | .file n => if isEligibleName n then [n] else []
  | .inaccessible _ => []
  | .dir _ es => forestTopFiles es

/-- A badge directory with one eligible top-level file, one eligible file
inside a subdirectory, and one ineligible file. -/
def nestedTree : FsEntry :=
  .dir "badges" (.cons (.file "a.gif")
    (.cons (.dir "sub" (.cons (.file "x.gif") .nil))
      (.cons (.file "notes.txt") .nil)))

/-- A badge directory whose subdirectory holds a file with the same base
name as a top-level file: discovery collects the name twice. -/
def dupTree : FsEntry :=
  .dir "badges" (.cons (.file "a.gif")
    (.cons (.dir "sub" (.cons (.file "a.gif") .nil)) .nil))

/-- A badge directory whose root cannot be accessed: the walk fails. -/
def errTree : FsEntry := .inaccessible "badges"

/-! ## Characterisation of the selection block -/

/-- `Int.tmod` agrees with `Nat` remainder on non-negative operands. -/
theorem tmod_ofNat (m n : Nat) : Int.tmod (Int.ofNat m) (Int.ofNat n) = Int.ofNat (m % n) := rfl

/-- The index the selection block reads from the catalog for a
normalized slot: entry `(slot - 1) mod N` of the shuffled index list. -/
def pickIndex (catalog : List String) (g : Nat → Nat) (slot : Int) : Nat :=
  (goShuffle g (List.range catalog.length)).getD ((slot - 1).toNat % catalog.length) 0

def pickName (catalog : List String) (g : Nat → Nat) (slot : Int) : String :=
  catalog.getD (pickIndex catalog g slot) ""

theorem pickIndex_lt (catalog : List String) (g : Nat → Nat) (slot : Int)
    (hn : 0 < catalog.length) : pickIndex catalog g slot < catalog.length := by
  unfold pickIndex
  have hlen := goShuffle_range_length g catalog.length
  have hmlt : (slot - 1).toNat % catalog.length < catalog.length := Nat.mod_lt _ hn
  rw [List.getD_eq_getElem _ _ (by omega)]
  exact goShuffle_range_lt g catalog.length _ (List.getElem_mem _)

theorem goIndex_ofNat (l : List α) (k : Nat) (h : k < l.length) :
    goIndex l (Int.ofNat k) = some (l.get ⟨k, h⟩) := by
  unfold goIndex
  exact dif_pos ⟨Int.ofNat_nonneg k, by simpa using h⟩

theorem selectA_picked (catalog : List String) (g : Nat → Nat) (slot : Int)
    (hne : catalog ≠ []) (hs : 1 ≤ slot) :
    selectA catalog g slot = .picked (pickName catalog g slot) := by
  have hn : 0 < catalog.length := List.length_pos.mpr hne
  have hlen := goShuffle_range_length g catalog.length
  have hm0 : (0 : Int) ≤ slot - 1 := by omega
  have hmlt : (slot - 1).toNat % catalog.length < catalog.length := Nat.mod_lt _ hn
  have hne0 : ¬ (Int.ofNat (goShuffle g (List.range catalog.length)).length = 0) := by
    rw [hlen]
    simp only [Int.ofNat_eq_coe, ne_eq, Nat.cast_eq_zero]
    omega
  have hmod : goMod (slot - 1) (Int.ofNat (goShuffle g (List.range catalog.length)).length) =
      some (Int.ofNat ((slot - 1).toNat % catalog.length)) := by
    unfold goMod
    rw [if_neg hne0]
    congr 1
    conv_lhs => rw [← Int.toNat_of_nonneg hm0]
    rw [hlen]
    exact tmod_ofNat _ _
  have hidx : ((slot - 1).toNat % catalog.length) < (goShuffle g (List.range catalog.length)).length := by
    omega
  have hti : (goShuffle g (List.range catalog.length)).get ⟨(slot - 1).toNat % catalog.length, hidx⟩ < catalog.length := by
    apply goShuffle_range_lt g catalog.length
    exact List.get_mem _ _ _
  have hguard : (Int.ofNat ((slot - 1).toNat % catalog.length)) <
      ((goShuffle g (List.range catalog.length)).length : Int) := by
    rw [hlen]
    exact Int.ofNat_lt.mpr hmlt
  unfold selectA
  dsimp only
  rw [hmod]
  dsimp only
  rw [if_pos hguard]
  rw [goIndex_ofNat _ _ hidx]
  dsimp only
  rw [goIndex_ofNat _ _ hti]
  dsimp only
  unfold pickName pickIndex
  congr 1
  simp only [List.get_eq_getElem] at hti ⊢
  rw [List.getD_eq_getElem _ _ hidx, List.getD_eq_getElem _ _ hti]

theorem pickName_mem (catalog : List String) (g : Nat → Nat) (slot : Int)
    (hn : 0 < catalog.length) : pickName catalog g slot ∈ catalog := by
  unfold pickName
  rw [List.getD_eq_getElem _ _ (pickIndex_lt catalog g slot hn)]
  exact List.getElem_mem _

theorem selectB_eq_selectA : @selectB = @selectA := rfl

theorem selectV_eq_selectA (catalog : List String) (g : Nat → Nat) (slot : Int)
    (hne : catalog ≠ []) : selectV catalog g slot = selectA catalog g slot := by
  have hn : 0 < catalog.length := List.length_pos.mpr hne
  have hlen := goShuffle_range_length g catalog.length
  unfold selectV selectA
  dsimp only
  rw [if_pos (by rw [hlen]; exact hn)]

theorem selectB_picked (catalog : List String) (g : Nat → Nat) (slot : Int)
    (hne : catalog ≠ []) (hs : 1 ≤ slot) :
    selectB catalog g slot = .picked (pickName catalog g slot) := by
  rw [show selectB catalog g slot = selectA catalog g slot from congrFun (congrFun (congrFun selectB_eq_selectA catalog) g) slot]
  exact selectA_picked catalog g slot hne hs

theorem selectV_picked (catalog : List String) (g : Nat → Nat) (slot : Int)
    (hne : catalog ≠ []) (hs : 1 ≤ slot) :
    selectV catalog g slot = .picked (pickName catalog g slot) := by
  rw [selectV_eq_selectA catalog g slot hne]
  exact selectA_picked catalog g slot hne hs

theorem pickName_inj (catalog : List String) (g : Nat → Nat) (s1 s2 : Int)
    (hnd : catalog.Nodup) (h11 : 1 ≤ s1) (h12 : s1 ≤ (catalog.length : Int))
    (h21 : 1 ≤ s2) (h22 : s2 ≤ (catalog.length : Int)) (hss : s1 ≠ s2) :
    pickName catalog g s1 ≠ pickName catalog g s2 := by
  have hn : 0 < catalog.length := by omega
  have hlen := goShuffle_range_length g catalog.length
  have hm1 : (s1 - 1).toNat < catalog.length := by omega
  have hm2 : (s2 - 1).toNat < catalog.length := by omega
  have hmm : (s1 - 1).toNat ≠ (s2 - 1).toNat := by omega
  have htnd := goShuffle_range_nodup g catalog.length
  intro heq
  unfold pickName pickIndex at heq
  rw [Nat.mod_eq_of_lt hm1, Nat.mod_eq_of_lt hm2] at heq
  rw [List.getD_eq_getElem _ _ (by omega : (s1 - 1).toNat < (goShuffle g (List.range catalog.length)).length)] at heq
  rw [List.getD_eq_getElem _ _ (by omega : (s2 - 1).toNat < (goShuffle g (List.range catalog.length)).length)] at heq
  have hb1 : (goShuffle g (List.range catalog.length))[(s1 - 1).toNat] < catalog.length :=
    goShuffle_range_lt g catalog.length _ (List.getElem_mem _)
  have hb2 : (goShuffle g (List.range catalog.length))[(s2 - 1).toNat] < catalog.length :=
    goShuffle_range_lt g catalog.length _ (List.getElem_mem _)
  rw [List.getD_eq_getElem _ _ hb1, List.getD_eq_getElem _ _ hb2] at heq
  have hti := (hnd.getElem_inj_iff).mp heq
  have := (htnd.getElem_inj_iff).mp hti
  exact hmm this

theorem pickName_surj (catalog : List String) (g : Nat → Nat) (f : String)
    (hf : f ∈ catalog) :
    ∃ s : Int, 1 ≤ s ∧ s ≤ (catalog.length : Int) ∧ pickName catalog g s = f := by
  obtain ⟨j, hj, hje⟩ := List.getElem_of_mem hf
  have hperm := goShuffle_perm g (List.range catalog.length)
  have hjmem : j ∈ goShuffle g (List.range catalog.length) :=
    hperm.mem_iff.mpr (List.mem_range.mpr hj)
  obtain ⟨m, hm, hme⟩ := List.getElem_of_mem hjmem
  have hlen := goShuffle_range_length g catalog.length
  refine ⟨(m : Int) + 1, by omega, by omega, ?_⟩
  unfold pickName pickIndex
  have hts : ((m : Int) + 1 - 1).toNat = m := by omega
  rw [hts, Nat.mod_eq_of_lt (by omega : m < catalog.length)]
  rw [List.getD_eq_getElem _ _ hm, hme]
  rw [List.getD_eq_getElem _ _ hj, hje]

/-! ## Characterisation of the walk and of discovery -/

mutual
theorem walkEntry_ok_eq : ∀ (e : FsEntry) (ns : List String),
    walkEntry e = Except.ok ns → ns = treeEligibleNames e
  | .file n, ns, h => by
    unfold walkEntry at h
    unfold treeEligibleNames
    split at h
    · next hel =>
      injection h with h
      rw [if_pos hel]
      exact h.symm
    · next hel =>
      injection h with h
      rw [if_neg hel]
      exact h.symm
  | .inaccessible n, ns, h => by
    exact absurd h (by unfold walkEntry; intro hc; cases hc)
  | .dir n es, ns, h => by
    unfold walkEntry at h
    unfold treeEligibleNames
    exact walkForest_ok_eq es ns h

theorem walkForest_ok_eq : ∀ (es : FsForest) (ns : List String),
    walkForest es = Except.ok ns → ns = forestEligibleNames es
  | .nil, ns, h => by
    unfold walkForest at h
    injection h with h
    unfold forestEligibleNames
    exact h.symm
  | .cons e rest, ns, h => by
    unfold walkForest at h
    unfold forestEligibleNames
    split at h
    · cases h
    · next xs hx =>
      split at h
      · cases h
      · next ys hy =>
        injection h with h
        rw [← walkEntry_ok_eq e xs hx, ← walkForest_ok_eq rest ys hy]
        exact h.symm
end

mutual
theorem treeEligibleNames_eligible : ∀ (e : FsEntry),
    ∀ x ∈ treeEligibleNames e, isEligibleName x = true
  | .file n => by
    unfold treeEligibleNames
    split
    · next hel =>
      intro x hx
      rw [List.mem_singleton] at hx
      subst hx
      exact hel
    · intro x hx
      cases hx
  | .inaccessible n => by
    unfold treeEligibleNames
    intro x hx
    cases hx
  | .dir n es => by
    unfold treeEligibleNames
    exact forestEligibleNames_eligible es

theorem forestEligibleNames_eligible : ∀ (es : FsForest),
    ∀ x ∈ forestEligibleNames es, isEligibleName x = true
  | .nil => by
    unfold forestEligibleNames
    intro x hx
    cases hx
  | .cons e rest => by
    unfold forestEligibleNames
    intro x hx
    rcases List.mem_append.mp hx with h | h
    · exact treeEligibleNames_eligible e x h
    · exact forestEligibleNames_eligible rest x h
end

/-! ## Slot normalization and seed lemmas -/

theorem normalizeSlot_ge_one (s : String) : 1 ≤ normalizeSlot s := by
  unfold normalizeSlot
  cases goAtoi s with
  | none => exact le_refl 1
  | some v =>
    dsimp only
    split <;> omega

theorem normalizeSlotB_ge_one (s : String) : 1 ≤ normalizeSlotB s := by
  unfold normalizeSlotB
  cases goAtoi s with
  | none => exact le_refl 1
  | some v =>
    dsimp only
    split <;> omega

theorem baseSeed_of_window (t k : Int) (ht : 0 ≤ t)
    (h1 : 2 * k ≤ t) (h2 : t < 2 * k + 2) : baseSeed t = k := by
  unfold baseSeed timeWindowSeconds
  rw [Int.tdiv_eq_ediv ht (by norm_num)]
  omega

theorem selectV_nil (g : Nat → Nat) (slot : Int) : selectV [] g slot = .selError := rfl

/-! ## The claims -/

/-- Claim C1: for every non-empty catalog snapshot and every caller-supplied
slot string, the selection block of each of the three variants is
well-defined (no branch panics) and returns a filename that is an element
of the snapshot: after normalization, the picked index `(slot - 1) mod N`
and the shuffled index stored there are both within bounds. -/
theorem badge_selection_within_bounds (catalog : List String) (g : Nat → Nat)
    (slotStr : String) (hne : catalog ≠ []) :
    (∃ f, selectA catalog g (normalizeSlot slotStr) = .picked f ∧ f ∈ catalog) ∧
    (∃ f, selectB catalog g (normalizeSlotB slotStr) = .picked f ∧ f ∈ catalog) ∧
    (∃ f, selectV catalog g (normalizeSlot slotStr) = .picked f ∧ f ∈ catalog) := by
  have hn : 0 < catalog.length := List.length_pos.mpr hne
  exact ⟨⟨pickName catalog g (normalizeSlot slotStr),
      selectA_picked _ _ _ hne (normalizeSlot_ge_one _), pickName_mem _ _ _ hn⟩,
    ⟨pickName catalog g (normalizeSlotB slotStr),
      selectB_picked _ _ _ hne (normalizeSlotB_ge_one _), pickName_mem _ _ _ hn⟩,
    ⟨pickName catalog g (normalizeSlot slotStr),
      selectV_picked _ _ _ hne (normalizeSlot_ge_one _), pickName_mem _ _ _ hn⟩⟩

/-- Witness for C1 at the concrete catalog `["a.gif", "b.png"]`, stream
`fun i => i`, slot string `"5"`. -/
theorem badge_selection_within_bounds_witness :
    (["a.gif", "b.png"] : List String) ≠ [] ∧
    ((∃ f, selectA ["a.gif", "b.png"] (fun i => i) (normalizeSlot "5") = .picked f ∧
        f ∈ ["a.gif", "b.png"]) ∧
     (∃ f, selectB ["a.gif", "b.png"] (fun i => i) (normalizeSlotB "5") = .picked f ∧
        f ∈ ["a.gif", "b.png"]) ∧
     (∃ f, selectV ["a.gif", "b.png"] (fun i => i) (normalizeSlot "5") = .picked f ∧
        f ∈ ["a.gif", "b.png"])) :=
  ⟨by decide, badge_selection_within_bounds ["a.gif", "b.png"] (fun i => i) "5" (by decide)⟩

/-- Claim C2 counterexample: as stated the claim is false.  A catalog of
size 2 with a repeated filename — reachable: discovery on `dupTree`, whose
subdirectory holds a file with the same base name as a top-level file,
produces exactly this catalog — maps the distinct slots 1 and 2 of one
window to the same filename. -/
theorem window_slot_bijection_counterexample :
    (discoverBadges ⟨[], 0⟩ dupTree 0).badgeFilesList = ["a.gif", "a.gif"] ∧
    selectA ["a.gif", "a.gif"] (fun _ => 0) 1 = .picked "a.gif" ∧
    selectA ["a.gif", "a.gif"] (fun _ => 0) 2 = .picked "a.gif" ∧
    (1 : Int) ≠ 2 :=
  ⟨rfl, rfl, rfl, by decide⟩

/-- Claim C2 (amended with the pairwise-distinct hypothesis the
counterexample forces): within one window (one stream `g`), for a catalog
of size N with pairwise-distinct entries, the slot-to-badge map of each
variant is a bijection between the slots `1..N` and the catalog: distinct
slots select distinct filenames, and every catalog entry is selected by
some slot in `1..N`. -/
theorem window_slot_bijection (catalog : List String) (g : Nat → Nat)
    (hnd : catalog.Nodup) :
    (∀ s1 s2 : Int, 1 ≤ s1 → s1 ≤ (catalog.length : Int) →
      1 ≤ s2 → s2 ≤ (catalog.length : Int) → s1 ≠ s2 →
      selectA catalog g s1 ≠ selectA catalog g s2 ∧
      selectB catalog g s1 ≠ selectB catalog g s2 ∧
      selectV catalog g s1 ≠ selectV catalog g s2) ∧
    (∀ f ∈ catalog, ∃ s : Int, 1 ≤ s ∧ s ≤ (catalog.length : Int) ∧
      selectA catalog g s = .picked f ∧
      selectB catalog g s = .picked f ∧
      selectV catalog g s = .picked f) := by
  constructor
  · intro s1 s2 h11 h12 h21 h22 hss
    have hne : catalog ≠ [] := by
      intro hc
      rw [hc] at h12
      simp at h12
      omega
    have hpn := pickName_inj catalog g s1 s2 hnd h11 h12 h21 h22 hss
    refine ⟨?_, ?_, ?_⟩
    · rw [selectA_picked _ _ _ hne h11, selectA_picked _ _ _ hne h21]
      intro h
      exact hpn (SelOutcome.picked.inj h)
    · rw [selectB_picked _ _ _ hne h11, selectB_picked _ _ _ hne h21]
      intro h
      exact hpn (SelOutcome.picked.inj h)
    · rw [selectV_picked _ _ _ hne h11, selectV_picked _ _ _ hne h21]
      intro h
      exact hpn (SelOutcome.picked.inj h)
  · intro f hf
    have hne : catalog ≠ [] := List.ne_nil_of_mem hf
    obtain ⟨s, hs1, hs2, hpick⟩ := pickName_surj catalog g f hf
    refine ⟨s, hs1, hs2, ?_, ?_, ?_⟩
    · rw [selectA_picked _ _ _ hne hs1, hpick]
    · rw [selectB_picked _ _ _ hne hs1, hpick]
    · rw [selectV_picked _ _ _ hne hs1, hpick]

/-- Witness for the amended C2 at the catalog `["a.gif", "b.png"]`:
slots 1 and 2 pick differently, and the entry `"a.gif"` is picked by some
slot in range. -/
theorem window_slot_bijection_witness :
    (["a.gif", "b.png"] : List String).Nodup ∧
    (selectA ["a.gif", "b.png"] (fun _ => 0) 1 ≠ selectA ["a.gif", "b.png"] (fun _ => 0) 2 ∧
     selectB ["a.gif", "b.png"] (fun _ => 0) 1 ≠ selectB ["a.gif", "b.png"] (fun _ => 0) 2 ∧
     selectV ["a.gif", "b.png"] (fun _ => 0) 1 ≠ selectV ["a.gif", "b.png"] (fun _ => 0) 2) ∧
    (∃ s : Int, 1 ≤ s ∧ s ≤ ((["a.gif", "b.png"] : List String).length : Int) ∧
     selectA ["a.gif", "b.png"] (fun _ => 0) s = .picked "a.gif" ∧
     selectB ["a.gif", "b.png"] (fun _ => 0) s = .picked "a.gif" ∧
     selectV ["a.gif", "b.png"] (fun _ => 0) s = .picked "a.gif") :=
  ⟨by decide,
   (window_slot_bijection ["a.gif", "b.png"] (fun _ => 0) (by decide)).1 1 2
     (by decide) (by decide) (by decide) (by decide) (by decide),
   (window_slot_bijection ["a.gif", "b.png"] (fun _ => 0) (by decide)).2 "a.gif"
     (by decide)⟩

/-- Claim C3 counterexample: in the `main.go` variants an empty snapshot
with a fresh timestamp (elapsed time not above the interval) triggers no
refresh, although the claim says an empty snapshot alone suffices. -/
theorem refresh_trigger_counterexample :
    shouldDiscoverMain ⟨[], 0⟩ 0 = false ∧
    (CatalogState.mk [] 0).badgeFilesList.length = 0 ∧
    ¬ discoveryInterval < (0 : Int) - (CatalogState.mk [] 0).lastDiscoveryTime :=
  ⟨rfl, rfl, by decide⟩

/-- Claim C3 (amended): only the serverless `Handler` triggers a refresh
exactly when the snapshot is empty or the elapsed time exceeds the
interval; the `main.go` handlers trigger exactly on elapsed time alone,
an empty snapshot not sufficing. -/
theorem refresh_trigger_conditions :
    (∀ (st : CatalogState) (now : Int),
      shouldDiscoverHandler st now = true ↔
        (st.badgeFilesList = [] ∨ discoveryInterval < now - st.lastDiscoveryTime)) ∧
    (∀ (st : CatalogState) (now : Int),
      shouldDiscoverMain st now = true ↔ discoveryInterval < now - st.lastDiscoveryTime) := by
  constructor
  · intro st now
    unfold shouldDiscoverHandler
    simp [List.length_eq_zero]
  · intro st now
    unfold shouldDiscoverMain
    simp

/-- Claim C4 counterexample: variant B normalizes the numeric slot 4
(which is at least 1) to 1 instead of accepting it unchanged. -/
theorem slot_normalization_counterexample :
    goAtoi "4" = some 4 ∧ (1 : Int) ≤ 4 ∧ normalizeSlotB "4" = 1 :=
  ⟨rfl, by decide, rfl⟩

/-- Claim C4 (amended): in variant A and the serverless variant the slot
is normalized to 1 exactly when parsing fails (absent or non-numeric
input) or the parsed value is below 1, and any parsed value ≥ 1 is
accepted unchanged; variant B additionally normalizes values above
`numBadgeSlots = 3` to 1. -/
theorem slot_normalization (s : String) :
    (goAtoi s = none → normalizeSlot s = 1 ∧ normalizeSlotB s = 1) ∧
    (∀ v, goAtoi s = some v → v < 1 → normalizeSlot s = 1 ∧ normalizeSlotB s = 1) ∧
    (∀ v, goAtoi s = some v → 1 ≤ v → normalizeSlot s = v) ∧
    (∀ v, goAtoi s = some v → 1 ≤ v → v ≤ numBadgeSlots → normalizeSlotB s = v) ∧
    (∀ v, goAtoi s = some v → numBadgeSlots < v → normalizeSlotB s = 1) := by
  refine ⟨?_, ?_, ?_, ?_, ?_⟩
  · intro h
    unfold normalizeSlot normalizeSlotB
    rw [h]
    exact ⟨rfl, rfl⟩
  · intro v h hv
    unfold normalizeSlot normalizeSlotB
    rw [h]
    constructor
    · dsimp only
      rw [if_pos hv]
    · dsimp only
      rw [if_pos (Or.inl hv)]
  · intro v h hv
    unfold normalizeSlot
    rw [h]
    dsimp only
    rw [if_neg (by omega)]
  · intro v h hv hv3
    unfold normalizeSlotB
    rw [h]
    dsimp only
    rw [if_neg (by push_neg; omega)]
  · intro v h hv
    unfold normalizeSlotB
    rw [h]
    dsimp only
    rw [if_pos (Or.inr hv)]

/-- Witness for the amended C4: concrete slot strings for each case. -/
theorem slot_normalization_witness :
    (normalizeSlot "abc" = 1 ∧ normalizeSlotB "abc" = 1) ∧
    (normalizeSlot "0" = 1 ∧ normalizeSlotB "0" = 1) ∧
    normalizeSlot "7" = 7 ∧ normalizeSlotB "2" = 2 ∧ normalizeSlotB "9" = 1 :=
  ⟨(slot_normalization "abc").1 rfl,
   (slot_normalization "0").2.1 0 rfl (by decide),
   (slot_normalization "7").2.2.1 7 rfl (by decide),
   (slot_normalization "2").2.2.2.1 2 rfl (by decide) (by decide),
   (slot_normalization "9").2.2.2.2 9 rfl (by decide)⟩

/-- Claim C5 counterexample: discovery on `nestedTree` also collects
`x.gif` from inside the subdirectory `sub` (the walk is recursive), so
the catalog is not the sorted list of top-level eligible names the claim
describes. -/
theorem discovery_catalog_counterexample :
    (discoverBadges ⟨[], 0⟩ nestedTree 0).badgeFilesList = ["a.gif", "x.gif"] ∧
    topLevelEligibleNames nestedTree = ["a.gif"] ∧
    (discoverBadges ⟨[], 0⟩ nestedTree 0).badgeFilesList ≠
      sortStrings (topLevelEligibleNames nestedTree) :=
  ⟨rfl, rfl, by decide⟩

/-- Claim C5 (amended): after every successful discovery the catalog is
exactly the names of the non-directory entries of the whole tree —
subdirectories included — whose lowercased name ends in `.gif` or `.png`,
sorted lexicographically; every refresh preserves this. -/
theorem discovery_catalog_invariant (st : CatalogState) (root : FsEntry) (now : Int)
    (ns : List String) (h : walkEntry root = Except.ok ns) :
    (discoverBadges st root now).badgeFilesList.Perm (treeEligibleNames root) ∧
    (discoverBadges st root now).badgeFilesList.Pairwise (fun a b => strLe a b = true) ∧
    (∀ x ∈ (discoverBadges st root now).badgeFilesList, isEligibleName x = true) := by
  have hns := walkEntry_ok_eq root ns h
  subst hns
  unfold discoverBadges
  rw [h]
  dsimp only
  split
  · refine ⟨sortStrings_perm _, sortStrings_sorted _, ?_⟩
    intro x hx
    have hmem := (sortStrings_perm (treeEligibleNames root)).mem_iff.mp hx
    exact treeEligibleNames_eligible root x hmem
  · next hlen =>
    have hz : treeEligibleNames root = [] := List.length_eq_zero.mp (by omega)
    rw [hz]
    exact ⟨List.Perm.refl [], List.Pairwise.nil, by intro x hx; cases hx⟩

/-- Witness for the amended C5 at `nestedTree`. -/
theorem discovery_catalog_invariant_witness :
    walkEntry nestedTree = Except.ok ["a.gif", "x.gif"] ∧
    ((discoverBadges ⟨[], 0⟩ nestedTree 0).badgeFilesList.Perm (treeEligibleNames nestedTree) ∧
     (discoverBadges ⟨[], 0⟩ nestedTree 0).badgeFilesList.Pairwise
        (fun a b => strLe a b = true) ∧
     (∀ x ∈ (discoverBadges ⟨[], 0⟩ nestedTree 0).badgeFilesList, isEligibleName x = true)) :=
  ⟨rfl, discovery_catalog_invariant ⟨[], 0⟩ nestedTree 0 ["a.gif", "x.gif"] rfl⟩

/-- Claim C6: when the directory walk fails with an error, `discoverBadges`
returns with the whole state — the snapshot list and its timestamp —
unchanged: no entry is added, removed or reordered. -/
theorem scan_error_retains_snapshot (st : CatalogState) (root : FsEntry) (now : Int)
    (h : walkEntry root = Except.error ()) :
    discoverBadges st root now = st := by
  unfold discoverBadges
  rw [h]

/-- Witness for C6 at the inaccessible root `errTree` and a non-trivial
prior snapshot. -/
theorem scan_error_retains_snapshot_witness :
    walkEntry errTree = Except.error () ∧
    discoverBadges ⟨["a.gif"], 5⟩ errTree 99 = ⟨["a.gif"], 5⟩ :=
  ⟨rfl, scan_error_retains_snapshot ⟨["a.gif"], 5⟩ errTree 99 rfl⟩

/-- Claim C7 counterexample: the `main.go` handler performs no existence
re-check: on a filesystem where no file exists it still hands the
selected path to `http.ServeFile` (the serve response) instead of
answering 404 with a message naming the missing file. -/
theorem missing_file_counterexample :
    badgeHandlerA ["a.gif"] "1" (fun _ => 0) (fun _ => false) =
      .ok "image/gif" "badges/a.gif" :=
  rfl

/-- Claim C7 (amended, restricted to the serverless variant as the
counterexample forces): whenever the selected file is missing at serve
time, `badgeHandlerInternal` answers 404 with the message naming that
specific file, before any serve; the `main.go` handlers make no such
pre-check and delegate the miss to `http.ServeFile`. -/
theorem missing_file_404 (catalog : List String) (slotStr : String) (g : Nat → Nat)
    (fileExists : String → Bool) (f : String)
    (hsel : selectV catalog g (normalizeSlot slotStr) = .picked f)
    (hmiss : fileExists (joinBadges f) = false) :
    badgeHandlerInternal catalog slotStr g fileExists = .notFound (fileMissingMsg f) := by
  have hne : catalog ≠ [] := by
    intro hc
    rw [hc, selectV_nil] at hsel
    cases hsel
  have hn : 0 < catalog.length := List.length_pos.mpr hne
  have hfalse : (catalog.length == 0) = false := by
    simp only [beq_eq_false_iff_ne, ne_eq]
    omega
  unfold badgeHandlerInternal
  rw [hfalse]
  simp only [Bool.false_eq_true, if_false]
  rw [hsel]
  dsimp only
  rw [hmiss]
  rfl

/-- Witness for the amended C7: one-file catalog, a filesystem on which
nothing exists. -/
theorem missing_file_404_witness :
    selectV ["a.gif"] (fun _ => 0) (normalizeSlot "1") = .picked "a.gif" ∧
    ((fun _ => false) (joinBadges "a.gif") = false) ∧
    badgeHandlerInternal ["a.gif"] "1" (fun _ => 0) (fun _ => false) =
      .notFound (fileMissingMsg "a.gif") :=
  ⟨rfl, rfl, missing_file_404 ["a.gif"] "1" (fun _ => 0) (fun _ => false) "a.gif" rfl rfl⟩

/-- Claim C8: for every non-empty catalog and normalized slot (≥ 1), the
guard `(slot - 1) mod N < N` always holds, so in all three variants the
defensive first-entry fallback and the HTTP-500 selection-error branch
are unreachable: the selection always takes the regular pick. -/
theorem defensive_branches_unreachable (catalog : List String) (g : Nat → Nat) (slot : Int)
    (hne : catalog ≠ []) (hs : 1 ≤ slot) :
    Int.tmod (slot - 1) (Int.ofNat catalog.length) < Int.ofNat catalog.length ∧
    (∀ f, selectA catalog g slot ≠ .fallback f) ∧ selectA catalog g slot ≠ .selError ∧
    (∀ f, selectB catalog g slot ≠ .fallback f) ∧ selectB catalog g slot ≠ .selError ∧
    (∀ f, selectV catalog g slot ≠ .fallback f) ∧ selectV catalog g slot ≠ .selError := by
  have hn : 0 < catalog.length := List.length_pos.mpr hne
  have hA := selectA_picked catalog g slot hne hs
  have hB := selectB_picked catalog g slot hne hs
  have hV := selectV_picked catalog g slot hne hs
  refine ⟨Int.tmod_lt_of_pos _ (Int.ofNat_lt.mpr hn), ?_, ?_, ?_, ?_, ?_, ?_⟩
  · intro f h
    rw [hA] at h
    cases h
  · intro h
    rw [hA] at h
    cases h
  · intro f h
    rw [hB] at h
    cases h
  · intro h
    rw [hB] at h
    cases h
  · intro f h
    rw [hV] at h
    cases h
  · intro h
    rw [hV] at h
    cases h

/-- Witness for C8 at the catalog `["a.gif", "b.png"]` and slot 5. -/
theorem defensive_branches_unreachable_witness :
    (["a.gif", "b.png"] : List String) ≠ [] ∧ (1 : Int) ≤ 5 ∧
    (Int.tmod (5 - 1) (Int.ofNat (["a.gif", "b.png"] : List String).length) <
        Int.ofNat (["a.gif", "b.png"] : List String).length ∧
     (∀ f, selectA ["a.gif", "b.png"] (fun i => i + 1) 5 ≠ .fallback f) ∧
     selectA ["a.gif", "b.png"] (fun i => i + 1) 5 ≠ .selError ∧
     (∀ f, selectB ["a.gif", "b.png"] (fun i => i + 1) 5 ≠ .fallback f) ∧
     selectB ["a.gif", "b.png"] (fun i => i + 1) 5 ≠ .selError ∧
     (∀ f, selectV ["a.gif", "b.png"] (fun i => i + 1) 5 ≠ .fallback f) ∧
     selectV ["a.gif", "b.png"] (fun i => i + 1) 5 ≠ .selError) :=
  ⟨by decide, by decide,
    defensive_branches_unreachable ["a.gif", "b.png"] (fun i => i + 1) 5 (by decide) (by decide)⟩

/-- Claim C9: the seed is the Unix timestamp truncated-divided by the
2-second window length; for (non-negative) timestamps in the same window
`[2k, 2k+2)` the seeds agree, and timestamps in different windows give
different seeds. -/
theorem seed_window_stability :
    (∀ (k t1 t2 : Int), 0 ≤ t1 → 0 ≤ t2 →
      2 * k ≤ t1 → t1 < 2 * k + 2 → 2 * k ≤ t2 → t2 < 2 * k + 2 →
      baseSeed t1 = baseSeed t2) ∧
    (∀ (k1 k2 t1 t2 : Int), 0 ≤ t1 → 0 ≤ t2 →
      2 * k1 ≤ t1 → t1 < 2 * k1 + 2 → 2 * k2 ≤ t2 → t2 < 2 * k2 + 2 → k1 ≠ k2 →
      baseSeed t1 ≠ baseSeed t2) := by
  constructor
  · intro k t1 t2 h1 h2 a b c d
    rw [baseSeed_of_window t1 k h1 a b, baseSeed_of_window t2 k h2 c d]
  · intro k1 k2 t1 t2 h1 h2 a b c d hk
    rw [baseSeed_of_window t1 k1 h1 a b, baseSeed_of_window t2 k2 h2 c d]
    exact hk

/-- Witness for C9: timestamps 4 and 5 share window 2; timestamps 5 and 6
lie in windows 2 and 3. -/
theorem seed_window_stability_witness :
    baseSeed 4 = baseSeed 5 ∧ baseSeed 5 ≠ baseSeed 6 :=
  ⟨seed_window_stability.1 2 4 5 (by decide) (by decide) (by decide) (by decide)
      (by decide) (by decide),
   seed_window_stability.2 2 3 5 6 (by decide) (by decide) (by decide) (by decide)
      (by decide) (by decide) (by decide)⟩

/-- Claim C10: for every non-empty catalog snapshot, every seed-derived
stream, and every already-normalized slot, the three variants' selection
computations agree. -/
theorem variants_selection_equivalent (catalog : List String) (g : Nat → Nat) (slot : Int)
    (hne : catalog ≠ []) (_hs : 1 ≤ slot) :
    selectA catalog g slot = selectB catalog g slot ∧
    selectB catalog g slot = selectV catalog g slot := by
  constructor
  · rfl
  · rw [selectV_eq_selectA catalog g slot hne]
    rfl

/-- Witness for C10 at the catalog `["a.gif", "b.png", "c.GIF"]`, slot 2. -/
theorem variants_selection_equivalent_witness :
    (["a.gif", "b.png", "c.GIF"] : List String) ≠ [] ∧ (1 : Int) ≤ 2 ∧
    (selectA ["a.gif", "b.png", "c.GIF"] (fun i => 2 * i) 2 =
        selectB ["a.gif", "b.png", "c.GIF"] (fun i => 2 * i) 2 ∧
     selectB ["a.gif", "b.png", "c.GIF"] (fun i => 2 * i) 2 =
        selectV ["a.gif", "b.png", "c.GIF"] (fun i => 2 * i) 2) :=
  ⟨by decide, by decide,
    variants_selection_equivalent ["a.gif", "b.png", "c.GIF"] (fun i => 2 * i) 2
      (by decide) (by decide)⟩
